import Mathlib

/-!
Verification of the bnk-converter pipeline (src/bnk_autoconverter.py).

The Python source is shallowly embedded: file names are (stem, extension)
pairs, directory paths are lists of components, and the filesystem is a
record of existing directories and files (with byte sizes).  External
tools (the extractor and the converter) are oracles supplied as
parameters, and filesystem primitives are modelled as succeeding.  Each
function of the source that the claims mention is translated to a Lean
definition of the same name; unexpected exceptions inside the
orchestrator's `try` block are modelled by an optional fault point.
-/

namespace BnkConv

/-- Deletion reason returned by `should_delete_file` ("small" / "duplicate"). -/
inductive Reason where
  | small : Reason
  | dup : Reason
deriving DecidableEq, Repr

/-- A file name, split as Python's `Path.stem` / suffix (without the dot). -/
structure FName where
  stem : String
  fext : String
deriving DecidableEq, Repr

/-- A directory path, as a list of components. -/
abbrev DPath := List String

/-- Location of a file: its directory plus its name. -/
abbrev Loc := DPath × FName

/-- The `file_sizes` dict threaded through one archive's conversion pass:
byte size mapped to the first file name seen with that size. -/
abbrev FilterState := List (Nat × FName)

/-- Python `file_size in file_sizes` (dict membership on the size key). -/
def sizeSeen (st : FilterState) (n : Nat) : Bool :=
  st.any (fun e => decide (e.1 = n))

/-- Embedding of `should_delete_file` (src/bnk_autoconverter.py:191-199).
Returns the (delete?, reason) pair together with the possibly-updated
`file_sizes` state (the Python function mutates the dict in place). -/
def should_delete_file (output_file : FName) (file_size : Nat)
    (delete_small : Bool) (min_file_size : Nat)
    (remove_duplicates : Bool) (file_sizes : FilterState) :
    (Bool × Option Reason) × FilterState :=
  if delete_small && decide (file_size < min_file_size) then
    ((true, some Reason.small), file_sizes)
  else if remove_duplicates && sizeSeen file_sizes file_size then
    ((true, some Reason.dup), file_sizes)
  else if remove_duplicates then
    ((false, none), file_sizes ++ [(file_size, output_file)])
  else
    ((false, none), file_sizes)

/-- Folding the filtering policy over a sequence of produced outputs,
collecting the decision for each. -/
def policyDecisions (delete_small : Bool) (min_file_size : Nat)
    (remove_duplicates : Bool) :
    FilterState → List (FName × Nat) → List (Bool × Option Reason)
  | _, [] => []
  | st, (f, n) :: rest =>
    let r := should_delete_file f n delete_small min_file_size remove_duplicates st
    r.1 :: policyDecisions delete_small min_file_size remove_duplicates r.2 rest

/-- Boolean prefix test on directory paths. -/
def isPre : DPath → DPath → Bool
  | [], _ => true
  | _ :: _, [] => false
  | a :: as, b :: bs => if a = b then isPre as bs else false

/-- The filesystem: the set of existing directories and of existing files
with their byte sizes, in creation order. -/
structure FS where
  dirs : List DPath
  files : List (Loc × Nat)
deriving DecidableEq, Repr

/-- Process state: the filesystem plus the current working directory. -/
structure Sys where
  fs : FS
  cwd : DPath
deriving DecidableEq, Repr

/-- Does directory `d` exist? -/
def dirExists (fs : FS) (d : DPath) : Bool :=
  decide (d ∈ fs.dirs)

/-- Size lookup in the file table. -/
def lookupSize : List (Loc × Nat) → Loc → Option Nat
  | [], _ => none
  | e :: rest, loc => if e.1 = loc then some e.2 else lookupSize rest loc

/-- Does file `loc` exist? -/
def fileExists (fs : FS) (loc : Loc) : Bool :=
  (lookupSize fs.files loc).isSome

/-- Embedding of `get_file_size` (src/bnk_autoconverter.py:65-70): the size
of the file, or 0 when it cannot be read (missing file). -/
def get_file_size (fs : FS) (loc : Loc) : Nat :=
  (lookupSize fs.files loc).getD 0

/-- `mkdir` (with `exist_ok` semantics). -/
def mkdir (fs : FS) (d : DPath) : FS :=
  if dirExists fs d then fs else { fs with dirs := fs.dirs ++ [d] }

/-- Create or overwrite a file. -/
def writeFile (fs : FS) (loc : Loc) (n : Nat) : FS :=
  { fs with files := fs.files.filter (fun e => !decide (e.1 = loc)) ++ [(loc, n)] }

/-- Remove one file (`Path.unlink`). -/
def unlink (fs : FS) (loc : Loc) : FS :=
  { fs with files := fs.files.filter (fun e => !decide (e.1 = loc)) }

/-- `shutil.rmtree`: remove the directory, all nested directories and all
files below it. -/
def rmtree (fs : FS) (d : DPath) : FS :=
  { dirs := fs.dirs.filter (fun x => !(isPre d x)),
    files := fs.files.filter (fun e => !(isPre d e.1.1)) }

/-- All files at or below directory `d`. -/
def filesUnder (fs : FS) (d : DPath) : List (Loc × Nat) :=
  fs.files.filter (fun e => isPre d e.1.1)

/-- `temp_dir.glob("*.wem")`: files directly in `d` whose suffix is `wem`,
in the order the file table reports them. -/
def glob_wem (fs : FS) (d : DPath) : List (Loc × Nat) :=
  fs.files.filter (fun e => decide (e.1.1 = d) && decide (e.1.2.fext = "wem"))

/-- Embedding of `run_command` (src/bnk_autoconverter.py:52-63).  The
oracle `eff` is `none` when the process cannot even be launched and
`some b` when it exits with success flag `b`.  Returns the success
boolean and the diagnostic lines printed. -/
def run_command (eff : Option Bool) (verbosity : Nat) : Bool × List String :=
  match eff with
  | none => (false, if verbosity > 1 then ["Error running command"] else [])
  | some b => (b, [])

/-- Per-fragment outcome of the conversion loop: whether the external
converter succeeded, and (when it did) the filtering decision applied to
the produced output. -/
structure FragResult where
  name : FName
  converted : Bool
  decision : Option (Bool × Option Reason)
deriving DecidableEq, Repr

/-- Result of the conversion loop body. -/
structure LoopOut where
  fs : FS
  results : List FragResult
  log : List String
deriving DecidableEq, Repr

/-- Progress line for verbosity 2. -/
def progressMsg (count total : Nat) : String :=
  "Processing file " ++ toString count ++ "/" ++ toString total

/-- Per-file line for verbosity 3. -/
def nameMsg (count total : Nat) (fn : FName) : String :=
  "Processing file " ++ toString count ++ "/" ++ toString total ++ ": "
    ++ fn.stem ++ "." ++ fn.fext

/-- Reason string as printed by the source. -/
def reasonStr : Option Reason → String
  | some Reason.small => "small"
  | some Reason.dup => "duplicate"
  | none => ""

/-- Deletion line for verbosity 3. -/
def deleteMsg (fn : FName) (sz : Nat) (r : Option Reason) : String :=
  "Deleting " ++ reasonStr r ++ " file: " ++ fn.stem ++ "." ++ fn.fext
    ++ " (" ++ toString sz ++ " bytes)"

/-- Failure line for verbosity 3. -/
def failMsg (fn : FName) : String :=
  "Failed to convert " ++ fn.stem ++ "." ++ fn.fext

/-- Effect of one converter invocation on the filesystem: the tool writes
its output file when it ran and produced one (`eff.1` is the launch/exit
outcome, `eff.2` the byte size of the file it wrote, if any). -/
def toolWrite (fs : FS) (oloc : Loc) (eff : Option Bool × Option Nat) : FS :=
  match eff with
  | (some _, some n) => writeFile fs oloc n
  | _ => fs

/-- The per-fragment loop of `convert_wem_files`
(src/bnk_autoconverter.py:213-239).  `conv` is the external converter
oracle: for a fragment it yields the launch/exit outcome (as for
`run_command`) and, when the tool ran, the byte size of the output file
it wrote, if it wrote one at all. -/
def convertLoop (out_dir : DPath) (e : String)
    (conv : FName → Option Bool × Option Nat) (verbosity : Nat)
    (ds : Bool) (m : Nat) (rd : Bool) (total : Nat) :
    Nat → FS → FilterState → List (Loc × Nat) → LoopOut
  | _, fs, _, [] => ⟨fs, [], []⟩
  | count, fs, st, (loc, _) :: rest =>
    let fn := loc.2
    let oloc : Loc := (out_dir, ⟨fn.stem, e⟩)
    let plog : List String :=
      if verbosity = 2 then [progressMsg count total]
      else if verbosity = 3 then [nameMsg count total fn]
      else []
    let rc := run_command (conv fn).1 verbosity
    let fs1 := toolWrite fs oloc (conv fn)
    if rc.1 then
      let fsz := get_file_size fs1 oloc
      let sdr := should_delete_file oloc.2 fsz ds m rd st
      let dlog := if sdr.1.1 && decide (verbosity = 3) then [deleteMsg oloc.2 fsz sdr.1.2] else []
      let fs2 := if sdr.1.1 then unlink fs1 oloc else fs1
      let ro := convertLoop out_dir e conv verbosity ds m rd total (count + 1) fs2 sdr.2 rest
      ⟨ro.fs, ⟨fn, true, some sdr.1⟩ :: ro.results, plog ++ rc.2 ++ dlog ++ ro.log⟩
    else
      let flog := if verbosity = 3 then [failMsg fn] else []
      let ro := convertLoop out_dir e conv verbosity ds m rd total (count + 1) fs1 st rest
      ⟨ro.fs, ⟨fn, false, none⟩ :: ro.results, plog ++ rc.2 ++ flog ++ ro.log⟩

/-- Result of `convert_wem_files`: the filesystem, the returned boolean,
the per-fragment outcomes, and the operator-facing output. -/
structure ConvOut where
  fs : FS
  ret : Bool
  results : List FragResult
  log : List String
deriving DecidableEq, Repr

/-- Embedding of `convert_wem_files` (src/bnk_autoconverter.py:201-247):
enumerate the `.wem` fragments in the workspace; if none, return false;
otherwise convert each in order, apply `should_delete_file` to each
produced output, and return true. -/
def convert_wem_files (fs : FS) (temp_dir out_dir : DPath) (e : String)
    (conv : FName → Option Bool × Option Nat) (verbosity : Nat)
    (ds : Bool) (m : Nat) (rd : Bool) : ConvOut :=
  let wem_files := glob_wem fs temp_dir
  if wem_files.isEmpty then ⟨fs, false, [], []⟩
  else
    let startLog := if verbosity = 1 then ["Converting files"] else []
    let lo := convertLoop out_dir e conv verbosity ds m rd wem_files.length 1 fs [] wem_files
    ⟨lo.fs, true, lo.results, startLog ++ lo.log⟩

/-- The state of `extract_bnk` right after copying the archive into the
workspace, changing directory there and letting the external extractor
run (`produced` is the oracle for the fragment files the extractor
writes).  `temp_dir` is the relative workspace path; the copy (made
before the chdir) and the extractor's fragments land at the caller's
cwd plus `temp_dir`, and the working directory is left pointing at the
workspace, not yet restored. -/
def extract_mid (s : Sys) (bnkName : FName) (bnk_size : Nat)
    (temp_dir : DPath) (produced : List (FName × Nat)) : Sys :=
  let fs1 := writeFile s.fs (s.cwd ++ temp_dir, bnkName) bnk_size
  let fs2 := produced.foldl (fun f pr => writeFile f (s.cwd ++ temp_dir, pr.1) pr.2) fs1
  ⟨fs2, s.cwd ++ temp_dir⟩

/-- Embedding of `extract_bnk` (src/bnk_autoconverter.py:171-189): copy
the archive into the workspace, chdir there, run the extractor
(`ext_success` is its exit oracle), then evaluate
`if temp_bnk.exists(): temp_bnk.unlink()`.  `temp_bnk` is the relative
path `temp_dir / name`, and the test runs after `os.chdir(temp_dir)`, so
it resolves against the changed working directory — it looks at
`temp_dir / temp_dir / name`, removes the file there if one exists, and
the real copy stays.  Finally chdir back to the saved absolute `getcwd()`
value. -/
def extract_bnk (s : Sys) (bnkName : FName) (bnk_size : Nat)
    (temp_dir : DPath) (ext_success : Bool)
    (produced : List (FName × Nat)) : Sys × Bool :=
  let mid := extract_mid s bnkName bnk_size temp_dir produced
  let checkLoc : Loc := (mid.cwd ++ temp_dir, bnkName)
  let fs3 := if fileExists mid.fs checkLoc then unlink mid.fs checkLoc else mid.fs
  (⟨fs3, s.cwd⟩, ext_success)

/-- `shutil.move` of one file into a destination (skipped when the source
is missing; move failures are swallowed in the source). -/
def move_file (fs : FS) (src dst : Loc) : FS :=
  match lookupSize fs.files src with
  | some n => writeFile (unlink fs src) dst n
  | none => fs

/-- Embedding of `cleanup_temp_dir` (src/bnk_autoconverter.py:249-265):
either delete the workspace outright, or first move every remaining
`.wem` fragment into the output directory and then delete it. -/
def cleanup_temp_dir (fs : FS) (temp_dir out_dir : DPath)
    (cleanup_wem : Bool) : FS :=
  if cleanup_wem then
    if dirExists fs temp_dir then rmtree fs temp_dir else fs
  else
    let fs1 := (glob_wem fs temp_dir).foldl
      (fun f w => move_file f w.1 (out_dir, w.1.2)) fs
    if dirExists fs1 temp_dir then rmtree fs1 temp_dir else fs1

/-- Where an unexpected exception is raised inside the `try` block of
`process_bnk_file`, if any.  `duringExtract` models a fault while
`extract_bnk` is in flight: the archive copy and the fragments are on
disk and the working directory has not been restored. -/
inductive FaultPoint where
  | beforeExtract : FaultPoint
  | duringExtract : FaultPoint
  | afterExtract : FaultPoint
  | afterConvert : FaultPoint
deriving DecidableEq, Repr

/-- The `finally` block of `process_bnk_file`
(src/bnk_autoconverter.py:299-304): remove the workspace if it still
exists.  `temp_dir` is a relative path, so both the existence test and
the removal resolve against whatever the working directory is when the
block runs — which is the workspace itself when a fault interrupted
extraction before the chdir back. -/
def finallyCleanup (s : Sys) (temp_dir : DPath) : Sys :=
  if dirExists s.fs (s.cwd ++ temp_dir) then
    ⟨rmtree s.fs (s.cwd ++ temp_dir), s.cwd⟩
  else s

/-- Workspace and output-directory creation at the top of
`process_bnk_file` (src/bnk_autoconverter.py:275-281): purge a stale
workspace of the same name, recreate it, and ensure the archive's output
subdirectory exists.  The relative workspace path resolves against the
caller's working directory; the output path is absolute. -/
def setup_dirs (s : Sys) (temp_dir out_dir : DPath) : Sys :=
  let t := s.cwd ++ temp_dir
  let fs0 := if dirExists s.fs t then rmtree s.fs t else s.fs
  ⟨mkdir (mkdir fs0 t) out_dir, s.cwd⟩

/-- Embedding of `process_bnk_file` (src/bnk_autoconverter.py:267-304):
the per-archive pipeline.  Returns the final state and the success
boolean.  `fault` injects an unexpected exception at the given point of
the `try` block; the `except` arm returns failure and the `finally` arm
always removes the workspace. -/
def process_bnk_file (s : Sys) (basename : String) (bnkName : FName)
    (bnk_size : Nat) (output_base : DPath) (e : String)
    (conv : FName → Option Bool × Option Nat)
    (ext_success : Bool) (produced : List (FName × Nat))
    (verbosity : Nat) (cleanup_wem ds : Bool) (m : Nat) (rd : Bool)
    (fault : Option FaultPoint) : Sys × Bool :=
  let temp_dir : DPath := ["temp_" ++ basename]
  let out_dir : DPath := output_base ++ [basename]
  let s2 := setup_dirs s temp_dir out_dir
  match fault with
  | some FaultPoint.beforeExtract => (finallyCleanup s2 temp_dir, false)
  | some FaultPoint.duringExtract =>
    (finallyCleanup (extract_mid s2 bnkName bnk_size temp_dir produced) temp_dir, false)
  | _ =>
    let er := extract_bnk s2 bnkName bnk_size temp_dir ext_success produced
    if er.2 = false then (finallyCleanup er.1 temp_dir, false)
    else if fault = some FaultPoint.afterExtract then (finallyCleanup er.1 temp_dir, false)
    else
      let co := convert_wem_files er.1.fs (er.1.cwd ++ temp_dir) out_dir e conv verbosity ds m rd
      if co.ret = false then (finallyCleanup ⟨co.fs, er.1.cwd⟩ temp_dir, false)
      else if fault = some FaultPoint.afterConvert then
        (finallyCleanup ⟨co.fs, er.1.cwd⟩ temp_dir, false)
      else
        let fs4 := cleanup_temp_dir co.fs (er.1.cwd ++ temp_dir) out_dir cleanup_wem
        (finallyCleanup ⟨fs4, er.1.cwd⟩ temp_dir, true)

end BnkConv

namespace BnkConv

/-! ### Helper lemmas about the filesystem model -/

theorem isPre_refl (d : DPath) : isPre d d = true := by
  induction d with
  | nil => rfl
  | cons a as ih => simp [isPre, ih]

theorem lookupSize_append (l1 l2 : List (Loc × Nat)) (loc : Loc) :
    lookupSize (l1 ++ l2) loc =
      match lookupSize l1 loc with
      | some n => some n
      | none => lookupSize l2 loc := by
  induction l1 with
  | nil => simp [lookupSize]
  | cons a rest ih => by_cases h : a.1 = loc <;> simp [lookupSize, h, ih]

theorem lookupSize_filter_self (l : List (Loc × Nat)) (loc : Loc) :
    lookupSize (l.filter (fun a => !decide (a.1 = loc))) loc = none := by
  induction l with
  | nil => rfl
  | cons a rest ih =>
    by_cases h : a.1 = loc <;> simp [List.filter_cons, h, lookupSize, ih]

theorem lookupSize_filter_other (l : List (Loc × Nat)) (loc loc' : Loc)
    (h : loc ≠ loc') :
    lookupSize (l.filter (fun a => !decide (a.1 = loc'))) loc = lookupSize l loc := by
  induction l with
  | nil => rfl
  | cons a rest ih =>
    by_cases h1 : a.1 = loc'
    · have h2 : a.1 ≠ loc := by rw [h1]; exact fun hx => h hx.symm
      have h3 : ¬(loc' = loc) := fun hx => h hx.symm
      simp [List.filter_cons, h1, lookupSize, h2, h3, ih]
    · by_cases h2 : a.1 = loc <;> simp [List.filter_cons, h1, lookupSize, h2, h, ih]

theorem fileExists_writeFile_self (fs : FS) (loc : Loc) (n : Nat) :
    fileExists (writeFile fs loc n) loc = true := by
  simp [fileExists, writeFile, lookupSize_append, lookupSize_filter_self, lookupSize]

theorem fileExists_writeFile_of (fs : FS) (loc loc' : Loc) (n : Nat)
    (h : fileExists fs loc = true) :
    fileExists (writeFile fs loc' n) loc = true := by
  by_cases he : loc = loc'
  · subst he; exact fileExists_writeFile_self fs loc n
  · simp only [fileExists, writeFile] at *
    rw [lookupSize_append, lookupSize_filter_other _ _ _ he]
    obtain ⟨n', hn⟩ := Option.isSome_iff_exists.mp h
    simp [hn]

theorem fileExists_foldl_write (ps : List (FName × Nat)) (td : DPath)
    (fs : FS) (loc : Loc) (h : fileExists fs loc = true) :
    fileExists (ps.foldl (fun f pr => writeFile f (td, pr.1) pr.2) fs) loc = true := by
  induction ps generalizing fs with
  | nil => exact h
  | cons p rest ih => exact ih _ (fileExists_writeFile_of _ _ _ _ h)

theorem fileExists_unlink_self (fs : FS) (loc : Loc) :
    fileExists (unlink fs loc) loc = false := by
  simp [fileExists, unlink, lookupSize_filter_self]

theorem unlink_writeFile_self (fs : FS) (loc : Loc) (n : Nat) :
    unlink (writeFile fs loc n) loc = unlink fs loc := by
  simp [unlink, writeFile, List.filter_append, List.filter_filter, List.filter_cons]

theorem filter_nil_of_imp {α : Type} (l : List α) (p q : α → Bool)
    (himp : ∀ a, p a = true → q a = true) (h : l.filter q = []) :
    l.filter p = [] := by
  induction l with
  | nil => rfl
  | cons a rest ih =>
    cases hq : q a with
    | true => simp [List.filter_cons, hq] at h
    | false =>
      have hp : p a = false := by
        cases hpa : p a
        · rfl
        · rw [himp a hpa] at hq; cases hq
      rw [List.filter_cons_of_neg (by simp [hq])] at h
      rw [List.filter_cons_of_neg (by simp [hp])]
      exact ih h

theorem filter_sub_nil {α : Type} (l : List α) (p q : α → Bool)
    (h : l.filter q = []) : (l.filter p).filter q = [] := by
  have hs : List.Sublist ((l.filter p).filter q) (l.filter q) :=
    List.Sublist.filter q (List.filter_sublist l)
  rw [h] at hs
  exact List.sublist_nil.mp hs

theorem filter_of_filter_nil {α : Type} (l : List α) (p q : α → Bool)
    (h : ∀ a, q a = true → p a = false) :
    (l.filter q).filter p = [] := by
  induction l with
  | nil => rfl
  | cons a rest ih =>
    cases hq : q a with
    | false => simpa [List.filter_cons, hq] using ih
    | true => simp [List.filter_cons, hq, h a hq, ih]

theorem glob_mkdir (fs : FS) (d' d : DPath) :
    glob_wem (mkdir fs d') d = glob_wem fs d := by
  unfold mkdir glob_wem
  split <;> rfl

theorem glob_rmtree_self (fs : FS) (d : DPath) :
    glob_wem (rmtree fs d) d = [] := by
  simp only [glob_wem, rmtree]
  apply filter_of_filter_nil
  intro a ha
  cases hd : decide (a.1.1 = d) with
  | false => simp
  | true =>
    have he : a.1.1 = d := of_decide_eq_true hd
    rw [he, isPre_refl] at ha
    cases ha

theorem glob_nil_rmtree (fs : FS) (d d' : DPath)
    (h : glob_wem fs d = []) : glob_wem (rmtree fs d') d = [] := by
  simp only [glob_wem, rmtree] at *
  exact filter_sub_nil _ _ _ h

theorem glob_nil_unlink (fs : FS) (loc : Loc) (d : DPath)
    (h : glob_wem fs d = []) : glob_wem (unlink fs loc) d = [] := by
  simp only [glob_wem, unlink] at *
  exact filter_sub_nil _ _ _ h

theorem glob_nil_writeFile (fs : FS) (loc : Loc) (n : Nat) (d : DPath)
    (hc : (decide (loc.1 = d) && decide (loc.2.fext = "wem")) = false)
    (h : glob_wem fs d = []) : glob_wem (writeFile fs loc n) d = [] := by
  simp only [glob_wem, writeFile] at *
  rw [List.filter_append, filter_sub_nil _ _ _ h]
  simp [List.filter_cons, hc]

theorem filesUnder_mkdir (fs : FS) (d' d : DPath) :
    filesUnder (mkdir fs d') d = filesUnder fs d := by
  unfold mkdir filesUnder
  split <;> rfl

theorem filesUnder_nil_rmtree (fs : FS) (d d' : DPath)
    (h : filesUnder fs d = []) : filesUnder (rmtree fs d') d = [] := by
  simp only [filesUnder, rmtree] at *
  exact filter_sub_nil _ _ _ h

theorem filesUnder_nil_unlink (fs : FS) (loc : Loc) (d : DPath)
    (h : filesUnder fs d = []) : filesUnder (unlink fs loc) d = [] := by
  simp only [filesUnder, unlink] at *
  exact filter_sub_nil _ _ _ h

theorem filesUnder_nil_writeFile (fs : FS) (loc : Loc) (n : Nat) (d : DPath)
    (hc : isPre d loc.1 = false)
    (h : filesUnder fs d = []) : filesUnder (writeFile fs loc n) d = [] := by
  simp only [filesUnder, writeFile] at *
  rw [List.filter_append, filter_sub_nil _ _ _ h]
  simp [List.filter_cons, hc]

theorem glob_nil_of_filesUnder_nil (fs : FS) (d : DPath)
    (h : filesUnder fs d = []) : glob_wem fs d = [] := by
  simp only [filesUnder, glob_wem] at *
  apply filter_nil_of_imp _ _ _ _ h
  intro a ha
  have h1 : a.1.1 = d := of_decide_eq_true (by
    cases hx : decide (a.1.1 = d)
    · rw [hx] at ha; cases ha
    · rfl)
  rw [h1, isPre_refl]

theorem dirExists_rmtree_self (fs : FS) (d : DPath) :
    dirExists (rmtree fs d) d = false := by
  simp [dirExists, rmtree, List.mem_filter, isPre_refl]

theorem finallyCleanup_dir (s : Sys) (d : DPath) :
    dirExists (finallyCleanup s d).fs (s.cwd ++ d) = false := by
  unfold finallyCleanup
  split
  · exact dirExists_rmtree_self s.fs (s.cwd ++ d)
  · rename_i h
    simpa using h

theorem glob_nil_finallyCleanup (s : Sys) (td d : DPath)
    (h : glob_wem s.fs d = []) :
    glob_wem (finallyCleanup s td).fs d = [] := by
  unfold finallyCleanup
  split
  · exact glob_nil_rmtree _ _ _ h
  · exact h

theorem filesUnder_nil_finallyCleanup (s : Sys) (td d : DPath)
    (h : filesUnder s.fs d = []) :
    filesUnder (finallyCleanup s td).fs d = [] := by
  unfold finallyCleanup
  split
  · exact filesUnder_nil_rmtree _ _ _ h
  · exact h

theorem temp_prefix_ne (b : String) : b ≠ "temp_" ++ b := by
  intro h
  have h2 := congrArg String.length h
  rw [String.length_append] at h2
  have h3 : ("temp_" : String).length = 5 := rfl
  omega

theorem isPre_out_temp (ob : DPath) (b : String) :
    isPre (ob ++ [b]) ["temp_" ++ b] = false := by
  cases ob with
  | nil =>
    show isPre [b] ["temp_" ++ b] = false
    simp only [isPre]
    rw [if_neg (temp_prefix_ne b)]
  | cons o os =>
    show isPre (o :: (os ++ [b])) ["temp_" ++ b] = false
    simp only [isPre]
    split
    · cases hc : os ++ [b] with
      | nil => exact absurd hc (by simp)
      | cons x xs => rfl
    · rfl

theorem out_ne_temp (ob : DPath) (b : String) :
    (ob ++ [b] : DPath) ≠ ["temp_" ++ b] := by
  intro h
  have h1 := isPre_out_temp ob b
  rw [h, isPre_refl] at h1
  cases h1

theorem isPre_iff (a : DPath) : ∀ b : DPath, isPre a b = true ↔ List.IsPrefix a b := by
  induction a with
  | nil => intro b; simp [isPre]
  | cons x xs ih =>
    intro b
    cases b with
    | nil => simp [isPre]
    | cons y ys =>
      by_cases h : x = y
      · subst h; simp [isPre, ih, List.cons_prefix_cons]
      · simp [isPre, h, List.cons_prefix_cons]

theorem isPre_append_self (d x : DPath) : isPre d (d ++ x) = true :=
  (isPre_iff d (d ++ x)).mpr (List.prefix_append d x)

theorem isPre_out_resolved (w ob : DPath) (b : String)
    (hw : isPre (ob ++ [b]) w = false) :
    isPre (ob ++ [b]) (w ++ ["temp_" ++ b]) = false := by
  cases hc : isPre (ob ++ [b]) (w ++ ["temp_" ++ b]) with
  | false => rfl
  | true =>
    exfalso
    have hp : List.IsPrefix (ob ++ [b]) (w ++ ["temp_" ++ b]) := (isPre_iff _ _).mp hc
    by_cases hl : (ob ++ [b]).length ≤ w.length
    · have hpw : List.IsPrefix (ob ++ [b]) w :=
        List.prefix_of_prefix_length_le hp (List.prefix_append w _) hl
      rw [(isPre_iff _ _).mpr hpw] at hw
      cases hw
    · have hlen : ob.length + 1 ≤ w.length + 1 := by
        have := hp.length_le
        simpa using this
      have hl' : w.length < ob.length + 1 := by
        simp only [List.length_append, List.length_cons, List.length_nil,
          Nat.not_le] at hl
        omega
      have heq : ob ++ [b] = w ++ ["temp_" ++ b] := by
        apply hp.eq_of_length
        simp only [List.length_append, List.length_cons, List.length_nil]
        omega
      have hlob : ob.length = w.length := by omega
      have hb : [b] = ["temp_" ++ b] := List.append_inj_right heq hlob
      have hb' : b = "temp_" ++ b := by injection hb
      exact temp_prefix_ne b hb'

theorem out_ne_resolved (w ob : DPath) (b : String)
    (hw : isPre (ob ++ [b]) w = false) :
    w ++ ["temp_" ++ b] ≠ ob ++ [b] := by
  intro h
  have h1 := isPre_out_resolved w ob b hw
  rw [← h, isPre_refl] at h1
  cases h1

theorem fileExists_writeFile_ne (fs : FS) (loc loc' : Loc) (n : Nat)
    (h : loc ≠ loc') :
    fileExists (writeFile fs loc' n) loc = fileExists fs loc := by
  simp only [fileExists, writeFile]
  rw [lookupSize_append, lookupSize_filter_other _ _ _ h]
  have h' : ¬(loc' = loc) := fun hx => h hx.symm
  cases hl : lookupSize fs.files loc
  · simp [lookupSize, h']
  · simp

theorem lookupSize_mem (l : List (Loc × Nat)) (loc : Loc)
    (h : (lookupSize l loc).isSome = true) : ∃ n, (loc, n) ∈ l := by
  induction l with
  | nil => cases h
  | cons a rest ih =>
    by_cases ha : a.1 = loc
    · exact ⟨a.2, by rw [← ha]; exact List.mem_cons_self _ _⟩
    · have h' : (lookupSize rest loc).isSome = true := by
        simpa [lookupSize, ha] using h
      obtain ⟨n, hn⟩ := ih h'
      exact ⟨n, List.mem_cons_of_mem _ hn⟩

theorem fileExists_mem (fs : FS) (loc : Loc)
    (h : fileExists fs loc = true) : ∃ n, (loc, n) ∈ fs.files :=
  lookupSize_mem fs.files loc h

theorem fileExists_false_of_filesUnder_nil (fs : FS) (d : DPath) (loc : Loc)
    (h : filesUnder fs d = []) (hp : isPre d loc.1 = true) :
    fileExists fs loc = false := by
  cases hx : fileExists fs loc with
  | false => rfl
  | true =>
    exfalso
    obtain ⟨n, hn⟩ := fileExists_mem fs loc hx
    simp only [filesUnder, List.filter_eq_nil_iff] at h
    exact h (loc, n) hn (by simpa using hp)

theorem extract_mid_cwd (s : Sys) (bnkName : FName) (bnk_size : Nat)
    (td : DPath) (produced : List (FName × Nat)) :
    (extract_mid s bnkName bnk_size td produced).cwd = s.cwd ++ td := rfl

theorem setup_dirs_cwd (s : Sys) (td od : DPath) :
    (setup_dirs s td od).cwd = s.cwd := rfl

theorem extract_bnk_no_unlink (s : Sys) (bnkName : FName) (bnk_size : Nat)
    (td : DPath) (ext_success : Bool) (produced : List (FName × Nat))
    (h : fileExists (extract_mid s bnkName bnk_size td produced).fs
      (s.cwd ++ td ++ td, bnkName) = false) :
    extract_bnk s bnkName bnk_size td ext_success produced
      = (⟨(extract_mid s bnkName bnk_size td produced).fs, s.cwd⟩, ext_success) := by
  simp only [extract_bnk, extract_mid_cwd, h]
  simp

theorem run_command_fst (eff : Option Bool) (v : Nat) :
    (run_command eff v).1 = eff.getD false := by
  cases eff <;> rfl

theorem convertLoop_names (out_dir : DPath) (e : String)
    (conv : FName → Option Bool × Option Nat) (v : Nat)
    (ds : Bool) (m : Nat) (rd : Bool) (total : Nat) :
    ∀ (ws : List (Loc × Nat)) (c : Nat) (fs : FS) (st : FilterState),
      (convertLoop out_dir e conv v ds m rd total c fs st ws).results.map FragResult.name
        = ws.map (fun w => w.1.2) := by
  intro ws
  induction ws with
  | nil => intro c fs st; simp [convertLoop]
  | cons w rest ih =>
    intro c fs st
    obtain ⟨loc, sz⟩ := w
    simp only [convertLoop]
    split <;> simp [ih]

theorem convertLoop_verbosity (out_dir : DPath) (e : String)
    (conv : FName → Option Bool × Option Nat)
    (ds : Bool) (m : Nat) (rd : Bool) (total : Nat) (v v' : Nat) :
    ∀ (ws : List (Loc × Nat)) (c : Nat) (fs : FS) (st : FilterState),
      (convertLoop out_dir e conv v ds m rd total c fs st ws).fs
        = (convertLoop out_dir e conv v' ds m rd total c fs st ws).fs ∧
      (convertLoop out_dir e conv v ds m rd total c fs st ws).results
        = (convertLoop out_dir e conv v' ds m rd total c fs st ws).results := by
  intro ws
  induction ws with
  | nil => intro c fs st; exact ⟨rfl, rfl⟩
  | cons w rest ih =>
    intro c fs st
    obtain ⟨loc, sz⟩ := w
    simp only [convertLoop, run_command_fst]
    split <;> simp [(ih (c + 1) _ _).1, (ih (c + 1) _ _).2]

theorem glob_nil_toolWrite (fs : FS) (oloc : Loc) (eff : Option Bool × Option Nat)
    (d : DPath) (hc : (decide (oloc.1 = d) && decide (oloc.2.fext = "wem")) = false)
    (h : glob_wem fs d = []) : glob_wem (toolWrite fs oloc eff) d = [] := by
  unfold toolWrite
  rcases eff with ⟨o1, o2⟩
  cases o1 <;> cases o2 <;>
    first
      | exact h
      | exact glob_nil_writeFile _ _ _ _ hc h

theorem glob_nil_write_fold (ps : List (FName × Nat)) (td od : DPath)
    (hne : td ≠ od) :
    ∀ fs, glob_wem fs od = [] →
      glob_wem (ps.foldl (fun f pr => writeFile f (td, pr.1) pr.2) fs) od = [] := by
  induction ps with
  | nil => intro fs h; exact h
  | cons p rest ih =>
    intro fs h
    exact ih _ (glob_nil_writeFile _ _ _ _ (by simp [hne]) h)

theorem glob_nil_extract_mid (s : Sys) (bnkName : FName) (bnk_size : Nat)
    (td : DPath) (produced : List (FName × Nat)) (od : DPath)
    (hne : s.cwd ++ td ≠ od) (h : glob_wem s.fs od = []) :
    glob_wem (extract_mid s bnkName bnk_size td produced).fs od = [] := by
  simp only [extract_mid]
  exact glob_nil_write_fold _ _ _ hne _ (glob_nil_writeFile _ _ _ _ (by simp [hne]) h)

theorem glob_nil_extract_bnk (s : Sys) (bnkName : FName) (bnk_size : Nat)
    (td : DPath) (ext_success : Bool) (produced : List (FName × Nat)) (od : DPath)
    (hne : s.cwd ++ td ≠ od) (h : glob_wem s.fs od = []) :
    glob_wem (extract_bnk s bnkName bnk_size td ext_success produced).1.fs od = [] := by
  have hm := glob_nil_extract_mid s bnkName bnk_size td produced od hne h
  simp only [extract_bnk]
  split
  · exact glob_nil_unlink _ _ _ hm
  · exact hm

theorem convertLoop_glob_nil (od : DPath) (e : String) (he : e ≠ "wem")
    (conv : FName → Option Bool × Option Nat) (v : Nat)
    (ds : Bool) (m : Nat) (rd : Bool) (total : Nat) :
    ∀ (ws : List (Loc × Nat)) (c : Nat) (fs : FS) (st : FilterState),
      glob_wem fs od = [] →
      glob_wem (convertLoop od e conv v ds m rd total c fs st ws).fs od = [] := by
  intro ws
  induction ws with
  | nil => intro c fs st h; exact h
  | cons w rest ih =>
    intro c fs st h
    obtain ⟨loc, sz⟩ := w
    have h1 : glob_wem (toolWrite fs (od, ⟨loc.2.stem, e⟩) (conv loc.2)) od = [] :=
      glob_nil_toolWrite _ _ _ _ (by simp [he]) h
    simp only [convertLoop]
    split
    · apply ih
      split
      · exact glob_nil_unlink _ _ _ h1
      · exact h1
    · exact ih _ _ _ h1

theorem glob_nil_convert (fs : FS) (td od : DPath) (e : String)
    (conv : FName → Option Bool × Option Nat) (v : Nat)
    (ds : Bool) (m : Nat) (rd : Bool) (he : e ≠ "wem")
    (h : glob_wem fs od = []) :
    glob_wem (convert_wem_files fs td od e conv v ds m rd).fs od = [] := by
  simp only [convert_wem_files]
  by_cases hg : (glob_wem fs td).isEmpty
  · simpa [hg] using h
  · simp only [hg, if_false]
    exact convertLoop_glob_nil od e he conv v ds m rd _ _ _ _ _ h

theorem mkdir_files (fs : FS) (d : DPath) : (mkdir fs d).files = fs.files := by
  unfold mkdir
  split <;> rfl

theorem filesUnder_rmtree_self (fs : FS) (d : DPath) :
    filesUnder (rmtree fs d) d = [] := by
  simp only [filesUnder, rmtree]
  apply filter_of_filter_nil
  intro a ha
  cases hp : isPre d a.1.1
  · rfl
  · rw [hp] at ha; cases ha

theorem dirExists_congr {fs fs' : FS} (h : fs.dirs = fs'.dirs) (d : DPath) :
    dirExists fs d = dirExists fs' d := by
  simp [dirExists, h]

theorem dirExists_mkdir_self (fs : FS) (d : DPath) :
    dirExists (mkdir fs d) d = true := by
  unfold mkdir
  split
  · assumption
  · simp [dirExists]

theorem dirExists_mkdir_mono (fs : FS) (d d' : DPath)
    (h : dirExists fs d = true) : dirExists (mkdir fs d') d = true := by
  unfold mkdir
  split
  · exact h
  · simp only [dirExists, decide_eq_true_eq] at h ⊢
    exact List.mem_append_left _ h

theorem dirExists_setup (s : Sys) (td od : DPath) :
    dirExists (setup_dirs s td od).fs (s.cwd ++ td) = true := by
  simp only [setup_dirs]
  exact dirExists_mkdir_mono _ _ _ (dirExists_mkdir_self _ _)

theorem dirs_toolWrite (fs : FS) (oloc : Loc) (eff : Option Bool × Option Nat) :
    (toolWrite fs oloc eff).dirs = fs.dirs := by
  unfold toolWrite
  rcases eff with ⟨o1, o2⟩
  cases o1 <;> cases o2 <;> rfl

theorem dirs_convertLoop (od : DPath) (e : String)
    (conv : FName → Option Bool × Option Nat) (v : Nat)
    (ds : Bool) (m : Nat) (rd : Bool) (total : Nat) :
    ∀ (ws : List (Loc × Nat)) (c : Nat) (fs : FS) (st : FilterState),
      (convertLoop od e conv v ds m rd total c fs st ws).fs.dirs = fs.dirs := by
  intro ws
  induction ws with
  | nil => intro c fs st; rfl
  | cons w rest ih =>
    intro c fs st
    obtain ⟨loc, sz⟩ := w
    simp only [convertLoop]
    split
    · rw [ih]
      split <;> simp [unlink, dirs_toolWrite]
    · rw [ih, dirs_toolWrite]

theorem dirs_convert (fs : FS) (td od : DPath) (e : String)
    (conv : FName → Option Bool × Option Nat) (v : Nat)
    (ds : Bool) (m : Nat) (rd : Bool) :
    (convert_wem_files fs td od e conv v ds m rd).fs.dirs = fs.dirs := by
  simp only [convert_wem_files]
  by_cases hg : (glob_wem fs td).isEmpty
  · simp [hg]
  · simp only [hg, if_false]
    exact dirs_convertLoop _ _ _ _ _ _ _ _ _ _ _ _

theorem dirs_write_fold (ps : List (FName × Nat)) (td : DPath) :
    ∀ fs : FS,
      (ps.foldl (fun f pr => writeFile f (td, pr.1) pr.2) fs).dirs = fs.dirs := by
  induction ps with
  | nil => intro fs; rfl
  | cons p rest ih => intro fs; rw [List.foldl_cons, ih]; rfl

theorem dirs_extract_mid (s : Sys) (bnkName : FName) (bnk_size : Nat)
    (td : DPath) (produced : List (FName × Nat)) :
    (extract_mid s bnkName bnk_size td produced).fs.dirs = s.fs.dirs := by
  simp only [extract_mid]
  rw [dirs_write_fold]
  rfl

theorem dirs_extract_bnk (s : Sys) (bnkName : FName) (bnk_size : Nat)
    (td : DPath) (ext_success : Bool) (produced : List (FName × Nat)) :
    (extract_bnk s bnkName bnk_size td ext_success produced).1.fs.dirs
      = s.fs.dirs := by
  simp only [extract_bnk]
  split
  · show (unlink _ _).dirs = _
    simp only [unlink]
    exact dirs_extract_mid _ _ _ _ _
  · exact dirs_extract_mid _ _ _ _ _

theorem finallyCleanup_files_self (s : Sys) (td : DPath)
    (h : dirExists s.fs (s.cwd ++ td) = true) :
    filesUnder (finallyCleanup s td).fs (s.cwd ++ td) = [] := by
  unfold finallyCleanup
  rw [if_pos h]
  exact filesUnder_rmtree_self _ _

/-! ### Claim theorems -/

/-- C1: with small-file deletion enabled and the size strictly below the
threshold, the decision is delete-as-small with unchanged state, for every
duplicate-removal flag and every accumulated `FilterState` (so it can never
be delete-as-duplicate there). -/
theorem small_takes_precedence_over_duplicate
    (f : FName) (n m : Nat) (rd : Bool) (st : FilterState)
    (h : n < m) :
    should_delete_file f n true m rd st = ((true, some Reason.small), st) := by
  simp [should_delete_file, h]

/-- Witness for C1 at the spec's own numbers: a 50-byte output below the
100-byte threshold whose size already occurs in the state. -/
theorem small_takes_precedence_over_duplicate_witness :
    (50 < 100) ∧
      should_delete_file ⟨"a", "wav"⟩ 50 true 100 true [(50, ⟨"b", "wav"⟩)]
        = ((true, some Reason.small), [(50, ⟨"b", "wav"⟩)]) :=
  ⟨by decide, small_takes_precedence_over_duplicate _ _ _ _ _ (by decide)⟩

/-- C2: with duplicate removal on and small-file deletion off, outputs of
sizes [1000, 2000, 1000] get decisions [keep, keep, delete-as-duplicate],
for any file names and any configured threshold. -/
theorem duplicate_law_decisions (m : Nat) (f1 f2 f3 : FName) :
    policyDecisions false m true [] [(f1, 1000), (f2, 2000), (f3, 1000)]
      = [(false, none), (false, none), (true, some Reason.dup)] := by
  simp [policyDecisions, should_delete_file, sizeSeen]

/-- C3: the `file_sizes` state is extended exactly when duplicate removal
is enabled, the decision is keep, and the size is new; on every delete
decision, and whenever duplicate removal is off, it is returned unchanged. -/
theorem filter_state_update_characterization
    (f : FName) (n : Nat) (ds : Bool) (m : Nat) (rd : Bool)
    (st : FilterState) :
    (should_delete_file f n ds m rd st).2 =
      if rd && !(should_delete_file f n ds m rd st).1.1 && !(sizeSeen st n) then
        st ++ [(n, f)]
      else st := by
  simp only [should_delete_file]
  split_ifs with h1 h2 h3 <;> simp_all

/-- C5: `convert_wem_files` returns false exactly when the workspace holds
no `.wem` fragment at enumeration time; otherwise it returns true — whatever
the converter oracle does — and every enumerated fragment gets processed, in
order (so one fragment's failure never stops the rest). -/
theorem convert_returns_false_iff_no_fragments
    (fs : FS) (temp_dir out_dir : DPath) (e : String)
    (conv : FName → Option Bool × Option Nat) (v : Nat)
    (ds : Bool) (m : Nat) (rd : Bool) :
    (convert_wem_files fs temp_dir out_dir e conv v ds m rd).ret
        = !(glob_wem fs temp_dir).isEmpty ∧
    (convert_wem_files fs temp_dir out_dir e conv v ds m rd).results.map FragResult.name
        = (glob_wem fs temp_dir).map (fun w => w.1.2) := by
  simp only [convert_wem_files]
  by_cases hg : (glob_wem fs temp_dir).isEmpty
  · simp [hg, List.isEmpty_iff.mp hg]
  · simp only [hg, Bool.not_false, if_false]
    exact ⟨rfl, convertLoop_names _ _ _ _ _ _ _ _ _ _ _ _⟩

/-- C6 (code bug evidence): the claim says the copied archive is removed
from the workspace regardless of the extractor's outcome, and lines
184-185 of the source clearly intend that — but `temp_bnk` is a relative
path checked after `os.chdir(temp_dir)`, so the check resolves to
`temp_a/temp_a/a.bnk`, is always false, and the copy survives.  Here, for
both extractor outcomes on a concrete archive, the copy is still in the
workspace after `extract_bnk` returns (the working directory is restored
and the extractor's flag passed through as the claim also states). -/
theorem copied_archive_never_removed :
    fileExists (extract_bnk ⟨⟨[["temp_a"]], []⟩, []⟩ ⟨"a", "bnk"⟩ 7 ["temp_a"]
        true []).1.fs (["temp_a"], ⟨"a", "bnk"⟩) = true ∧
    fileExists (extract_bnk ⟨⟨[["temp_a"]], []⟩, []⟩ ⟨"a", "bnk"⟩ 7 ["temp_a"]
        false []).1.fs (["temp_a"], ⟨"a", "bnk"⟩) = true ∧
    (extract_bnk ⟨⟨[["temp_a"]], []⟩, []⟩ ⟨"a", "bnk"⟩ 7 ["temp_a"]
        true []).1.cwd = [] ∧
    (extract_bnk ⟨⟨[["temp_a"]], []⟩, []⟩ ⟨"a", "bnk"⟩ 7 ["temp_a"]
        true []).2 = true := by
  refine ⟨?_, ?_, rfl, rfl⟩ <;> decide

/-- C7: two runs of `convert_wem_files` that differ only in the verbosity
level produce the same filesystem, the same returned boolean and the same
per-fragment outcomes (conversion success and keep/delete decision);
verbosity influences only the printed log. -/
theorem verbosity_noninterference
    (fs : FS) (temp_dir out_dir : DPath) (e : String)
    (conv : FName → Option Bool × Option Nat)
    (ds : Bool) (m : Nat) (rd : Bool) (v v' : Nat) :
    (convert_wem_files fs temp_dir out_dir e conv v ds m rd).fs
      = (convert_wem_files fs temp_dir out_dir e conv v' ds m rd).fs ∧
    (convert_wem_files fs temp_dir out_dir e conv v ds m rd).ret
      = (convert_wem_files fs temp_dir out_dir e conv v' ds m rd).ret ∧
    (convert_wem_files fs temp_dir out_dir e conv v ds m rd).results
      = (convert_wem_files fs temp_dir out_dir e conv v' ds m rd).results := by
  simp only [convert_wem_files]
  by_cases hg : (glob_wem fs temp_dir).isEmpty
  · simp [hg]
  · simp only [hg, if_false]
    refine ⟨?_, rfl, ?_⟩
    · exact (convertLoop_verbosity _ _ _ _ _ _ _ v v' _ _ _ _).1
    · exact (convertLoop_verbosity _ _ _ _ _ _ _ v v' _ _ _ _).2

/-- C4 (code bug evidence): the claim — and the source's `try`/`finally`
structure — say the workspace is removed on every exit including a caught
fault, but the finally block's `temp_dir.exists()` is a relative check.
When a fault interrupts extraction after `os.chdir(temp_dir)` and before
the restore, the check resolves to `temp_a/temp_a`, returns false, and the
rmtree is skipped: after `process_bnk_file` returns failure for this
concrete archive, the workspace `temp_a` still exists (with the copied
archive still inside) and the working directory is left pointing at it. -/
theorem workspace_survives_extraction_fault :
    (process_bnk_file ⟨⟨[], []⟩, []⟩ "a" ⟨"a", "bnk"⟩ 7 ["output"] "wav"
        (fun _ => (some true, some 1)) true [] 1 true false 4844 false
        (some FaultPoint.duringExtract)).2 = false ∧
    dirExists (process_bnk_file ⟨⟨[], []⟩, []⟩ "a" ⟨"a", "bnk"⟩ 7 ["output"] "wav"
        (fun _ => (some true, some 1)) true [] 1 true false 4844 false
        (some FaultPoint.duringExtract)).1.fs ["temp_a"] = true ∧
    fileExists (process_bnk_file ⟨⟨[], []⟩, []⟩ "a" ⟨"a", "bnk"⟩ 7 ["output"] "wav"
        (fun _ => (some true, some 1)) true [] 1 true false 4844 false
        (some FaultPoint.duringExtract)).1.fs (["temp_a"], ⟨"a", "bnk"⟩) = true ∧
    (process_bnk_file ⟨⟨[], []⟩, []⟩ "a" ⟨"a", "bnk"⟩ 7 ["output"] "wav"
        (fun _ => (some true, some 1)) true [] 1 true false 4844 false
        (some FaultPoint.duringExtract)).1.cwd = ["temp_a"] := by
  refine ⟨rfl, ?_, ?_, ?_⟩ <;> decide

/-- C10: measuring an output's size never faults — an unreadable (missing)
file is reported as size 0 — and a converter run that exits successfully
without producing its expected output is treated as a successful conversion
of a 0-byte file, which the filtering policy deletes as small whenever
small-file deletion is on with a positive threshold (never as a conversion
failure). -/
theorem missing_output_size_zero_policy :
    (∀ (fs : FS) (loc : Loc), fileExists fs loc = false → get_file_size fs loc = 0) ∧
    (∀ (fs : FS) (temp_dir out_dir : DPath) (e : String) (v m : Nat) (rd : Bool)
        (loc : Loc) (sz : Nat) (conv : FName → Option Bool × Option Nat),
        glob_wem fs temp_dir = [(loc, sz)] →
        conv loc.2 = (some true, none) →
        fileExists fs (out_dir, ⟨loc.2.stem, e⟩) = false →
        0 < m →
        (convert_wem_files fs temp_dir out_dir e conv v true m rd).results
          = [⟨loc.2, true, some (true, some Reason.small)⟩]) := by
  have hget : ∀ (fs : FS) (loc : Loc),
      fileExists fs loc = false → get_file_size fs loc = 0 := by
    intro fs loc h
    simp only [fileExists] at h
    simp only [get_file_size]
    cases hl : lookupSize fs.files loc
    · rfl
    · rw [hl] at h; cases h
  refine ⟨hget, ?_⟩
  intro fs temp_dir out_dir e v m rd loc sz conv hglob hconv hne hm
  have hsz := hget fs (out_dir, ⟨loc.2.stem, e⟩) hne
  have htw : toolWrite fs (out_dir, ⟨loc.2.stem, e⟩) (some true, none) = fs := rfl
  simp [convert_wem_files, hglob, convertLoop, hconv, run_command, htw, hsz,
    should_delete_file, hm]

/-- Witness for C10: a one-fragment workspace where the converter reports
success but writes nothing; the output is measured as 0 bytes and deleted
as small. -/
theorem missing_output_size_zero_policy_witness :
    get_file_size ⟨[], []⟩ ([], ⟨"a", "wav"⟩) = 0 ∧
    (convert_wem_files ⟨[["temp_a"]], [(((["temp_a"] : DPath), ⟨"x", "wem"⟩), 5)]⟩
        ["temp_a"] ["output", "a"] "wav" (fun _ => (some true, none)) 1 true 4844 false).results
      = [⟨⟨"x", "wem"⟩, true, some (true, some Reason.small)⟩] :=
  ⟨missing_output_size_zero_policy.1 _ _ (by decide),
   missing_output_size_zero_policy.2
     ⟨[["temp_a"]], [(((["temp_a"] : DPath), ⟨"x", "wem"⟩), 5)]⟩
     ["temp_a"] ["output", "a"] "wav" 1 4844 false
     ((["temp_a"] : DPath), ⟨"x", "wem"⟩) 5 (fun _ => (some true, none))
     (by decide) rfl (by decide) (by decide)⟩

/-- C8: an archive whose extraction succeeds with zero produced fragments
makes `convert_wem_files` report nothing to convert, so `process_bnk_file`
returns failure, and the archive's output subdirectory holds no entries
afterwards.  Hypotheses: the archive's suffix is not `wem` (archives are
selected by `glob("*.bnk")`, so the copy that the source never removes is
not picked up by the fragment enumeration), the output subdirectory held
nothing before and is not an ancestor of the working directory, and the
starting state has no ghost files in a non-existing workspace. -/
theorem zero_fragments_reports_failure
    (s : Sys) (basename : String) (bnkName : FName) (bnk_size : Nat)
    (output_base : DPath) (e : String) (conv : FName → Option Bool × Option Nat)
    (verbosity : Nat) (cleanup_wem ds : Bool) (m : Nat) (rd : Bool)
    (hbnk : bnkName.fext ≠ "wem")
    (hghost : dirExists s.fs (s.cwd ++ ["temp_" ++ basename]) = true ∨
      filesUnder s.fs (s.cwd ++ ["temp_" ++ basename]) = [])
    (hout : filesUnder s.fs (output_base ++ [basename]) = [])
    (hdisj : isPre (output_base ++ [basename]) s.cwd = false) :
    (process_bnk_file s basename bnkName bnk_size output_base e conv
        true [] verbosity cleanup_wem ds m rd none).2 = false ∧
    filesUnder (process_bnk_file s basename bnkName bnk_size output_base e conv
        true [] verbosity cleanup_wem ds m rd none).1.fs
      (output_base ++ [basename]) = [] := by
  have hpre : isPre (output_base ++ [basename])
      (s.cwd ++ ["temp_" ++ basename]) = false :=
    isPre_out_resolved s.cwd output_base basename hdisj
  have hfu : filesUnder
      (setup_dirs s ["temp_" ++ basename] (output_base ++ [basename])).fs
      (s.cwd ++ ["temp_" ++ basename]) = [] := by
    simp only [setup_dirs]
    rw [filesUnder_mkdir, filesUnder_mkdir]
    split_ifs with h
    · exact filesUnder_rmtree_self _ _
    · rcases hghost with hg | hg
      · exact absurd hg h
      · exact hg
  have h0out : filesUnder
      (setup_dirs s ["temp_" ++ basename] (output_base ++ [basename])).fs
      (output_base ++ [basename]) = [] := by
    simp only [setup_dirs]
    rw [filesUnder_mkdir, filesUnder_mkdir]
    split_ifs with h
    · exact filesUnder_nil_rmtree _ _ _ hout
    · exact hout
  have hcheck : fileExists
      (extract_mid (setup_dirs s ["temp_" ++ basename] (output_base ++ [basename]))
        bnkName bnk_size ["temp_" ++ basename] []).fs
      (s.cwd ++ ["temp_" ++ basename] ++ ["temp_" ++ basename], bnkName) = false := by
    have hnel : ((s.cwd ++ ["temp_" ++ basename] ++ ["temp_" ++ basename] : DPath),
        bnkName) ≠ ((s.cwd ++ ["temp_" ++ basename] : DPath), bnkName) := by
      intro hx
      have h1 := congrArg Prod.fst hx
      have h2 := congrArg List.length h1
      simp at h2
    simp only [extract_mid, setup_dirs_cwd, List.foldl_nil]
    rw [fileExists_writeFile_ne _ _ _ _ hnel]
    exact fileExists_false_of_filesUnder_nil _ _ _ hfu (isPre_append_self _ _)
  have her : extract_bnk
      (setup_dirs s ["temp_" ++ basename] (output_base ++ [basename]))
      bnkName bnk_size ["temp_" ++ basename] true []
      = (⟨writeFile (setup_dirs s ["temp_" ++ basename]
            (output_base ++ [basename])).fs
            (s.cwd ++ ["temp_" ++ basename], bnkName) bnk_size, s.cwd⟩, true) := by
    rw [extract_bnk_no_unlink _ _ _ _ _ _ hcheck]
    rfl
  have hglob2 : glob_wem
      (writeFile (setup_dirs s ["temp_" ++ basename] (output_base ++ [basename])).fs
        (s.cwd ++ ["temp_" ++ basename], bnkName) bnk_size)
      (s.cwd ++ ["temp_" ++ basename]) = [] :=
    glob_nil_writeFile _ _ _ _ (by simp [hbnk])
      (glob_nil_of_filesUnder_nil _ _ hfu)
  have hconv2 : convert_wem_files
      (writeFile (setup_dirs s ["temp_" ++ basename] (output_base ++ [basename])).fs
        (s.cwd ++ ["temp_" ++ basename], bnkName) bnk_size)
      (s.cwd ++ ["temp_" ++ basename]) (output_base ++ [basename])
      e conv verbosity ds m rd
      = ⟨writeFile (setup_dirs s ["temp_" ++ basename] (output_base ++ [basename])).fs
          (s.cwd ++ ["temp_" ++ basename], bnkName) bnk_size, false, [], []⟩ := by
    simp [convert_wem_files, hglob2]
  constructor
  · simp only [process_bnk_file, her, hconv2]
    simp
  · simp only [process_bnk_file, her, hconv2]
    simp only [Bool.true_eq_false, if_false]
    simp only [reduceCtorEq, if_false]
    apply filesUnder_nil_finallyCleanup
    exact filesUnder_nil_writeFile _ _ _ _ hpre h0out

/-- Witness for C8: a minimal concrete state — empty filesystem, extraction
succeeding, zero fragments — on which `process_bnk_file` reports failure. -/
theorem zero_fragments_reports_failure_witness :
    ((⟨"a", "bnk"⟩ : FName).fext ≠ "wem") ∧
    (dirExists (⟨[], []⟩ : FS) (([] : DPath) ++ ["temp_" ++ "a"]) = true ∨
      filesUnder (⟨[], []⟩ : FS) (([] : DPath) ++ ["temp_" ++ "a"]) = []) ∧
    filesUnder (⟨[], []⟩ : FS) (["output"] ++ ["a"]) = [] ∧
    isPre (["output"] ++ ["a"]) ([] : DPath) = false ∧
    (process_bnk_file ⟨⟨[], []⟩, []⟩ "a" ⟨"a", "bnk"⟩ 7 ["output"] "wav"
        (fun _ => (some true, some 1)) true [] 1 true false 4844 false none).2
      = false :=
  ⟨by decide, Or.inr (by decide), by decide, by decide,
   (zero_fragments_reports_failure ⟨⟨[], []⟩, []⟩ "a" ⟨"a", "bnk"⟩ 7 ["output"] "wav"
      (fun _ => (some true, some 1)) 1 true false 4844 false
      (by decide) (Or.inr (by decide)) (by decide) (by decide)).1⟩

/-- C9 counterexample: the claim as stated — every failure path deletes the
workspace and all fragments in it — fails at a fault caught during
extraction: the finally block's relative existence check misresolves
against the unrestored working directory, and here the failing run leaves
the workspace directory in place with an extracted fragment still inside. -/
theorem fragment_survives_extraction_fault :
    (process_bnk_file ⟨⟨[], []⟩, []⟩ "a" ⟨"a", "bnk"⟩ 7 ["output"] "wav"
        (fun _ => (some true, some 1)) true [(⟨"f", "wem"⟩, 3)] 1 false false 4844 false
        (some FaultPoint.duringExtract)).2 = false ∧
    dirExists (process_bnk_file ⟨⟨[], []⟩, []⟩ "a" ⟨"a", "bnk"⟩ 7 ["output"] "wav"
        (fun _ => (some true, some 1)) true [(⟨"f", "wem"⟩, 3)] 1 false false 4844 false
        (some FaultPoint.duringExtract)).1.fs ["temp_a"] = true ∧
    fileExists (process_bnk_file ⟨⟨[], []⟩, []⟩ "a" ⟨"a", "bnk"⟩ 7 ["output"] "wav"
        (fun _ => (some true, some 1)) true [(⟨"f", "wem"⟩, 3)] 1 false false 4844 false
        (some FaultPoint.duringExtract)).1.fs (["temp_a"], ⟨"f", "wem"⟩) = true := by
  refine ⟨rfl, ?_, ?_⟩ <;> decide

set_option maxHeartbeats 1600000 in
/-- C9 (amended): whenever `process_bnk_file` reports failure (extraction
failure, zero fragments, or a caught fault at any modelled point), no
fragment appears in the archive's output subdirectory — even with fragment
retention configured, since moves happen only in `cleanup_temp_dir` on the
all-success path; and on every such failure path except a fault caught
during extraction (where the unrestored working directory makes the
finally block's relative check miss the workspace), the workspace
directory is gone and no file below it remains. -/
theorem fragments_not_released_on_failure
    (s : Sys) (basename : String) (bnkName : FName) (bnk_size : Nat)
    (output_base : DPath) (e : String) (conv : FName → Option Bool × Option Nat)
    (ext_success : Bool) (produced : List (FName × Nat)) (verbosity : Nat)
    (cleanup_wem ds : Bool) (m : Nat) (rd : Bool) (fault : Option FaultPoint)
    (he : e ≠ "wem")
    (hwem0 : glob_wem s.fs (output_base ++ [basename]) = [])
    (hdisj : isPre (output_base ++ [basename]) s.cwd = false)
    (hfail : (process_bnk_file s basename bnkName bnk_size output_base e conv
        ext_success produced verbosity cleanup_wem ds m rd fault).2 = false) :
    glob_wem (process_bnk_file s basename bnkName bnk_size output_base e conv
        ext_success produced verbosity cleanup_wem ds m rd fault).1.fs
      (output_base ++ [basename]) = [] ∧
    (fault ≠ some FaultPoint.duringExtract →
      dirExists (process_bnk_file s basename bnkName bnk_size output_base e conv
          ext_success produced verbosity cleanup_wem ds m rd fault).1.fs
        (s.cwd ++ ["temp_" ++ basename]) = false ∧
      filesUnder (process_bnk_file s basename bnkName bnk_size output_base e conv
          ext_success produced verbosity cleanup_wem ds m rd fault).1.fs
        (s.cwd ++ ["temp_" ++ basename]) = []) := by
  have hne : s.cwd ++ ["temp_" ++ basename] ≠ output_base ++ [basename] :=
    out_ne_resolved s.cwd output_base basename hdisj
  have hsetup : glob_wem
      (setup_dirs s ["temp_" ++ basename] (output_base ++ [basename])).fs
      (output_base ++ [basename]) = [] := by
    simp only [setup_dirs]
    rw [glob_mkdir, glob_mkdir]
    split_ifs with h
    · exact glob_nil_rmtree _ _ _ hwem0
    · exact hwem0
  have hd2 : dirExists
      (setup_dirs s ["temp_" ++ basename] (output_base ++ [basename])).fs
      (s.cwd ++ ["temp_" ++ basename]) = true :=
    dirExists_setup _ _ _
  have hder : dirExists
      (extract_bnk (setup_dirs s ["temp_" ++ basename] (output_base ++ [basename]))
        bnkName bnk_size ["temp_" ++ basename] ext_success produced).1.fs
      (s.cwd ++ ["temp_" ++ basename]) = true :=
    (dirExists_congr (dirs_extract_bnk _ _ _ _ _ _) _).trans hd2
  have hdco : dirExists
      (convert_wem_files
        (extract_bnk (setup_dirs s ["temp_" ++ basename] (output_base ++ [basename]))
          bnkName bnk_size ["temp_" ++ basename] ext_success produced).1.fs
        (s.cwd ++ ["temp_" ++ basename]) (output_base ++ [basename])
        e conv verbosity ds m rd).fs
      (s.cwd ++ ["temp_" ++ basename]) = true :=
    (dirExists_congr (dirs_convert _ _ _ _ _ _ _ _ _) _).trans hder
  refine ⟨?_, ?_⟩
  · unfold process_bnk_file at hfail ⊢
    rcases fault with _ | f
    · dsimp only at hfail ⊢
      split_ifs at hfail ⊢ <;>
        first
          | exact glob_nil_finallyCleanup _ _ _
              (glob_nil_extract_bnk _ _ _ _ _ _ _ hne hsetup)
          | exact glob_nil_finallyCleanup _ _ _
              (glob_nil_convert _ _ _ _ _ _ _ _ _ he
                (glob_nil_extract_bnk _ _ _ _ _ _ _ hne hsetup))
    · cases f <;> dsimp only at hfail ⊢ <;>
        first
          | exact glob_nil_finallyCleanup _ _ _ hsetup
          | exact glob_nil_finallyCleanup _ _ _
              (glob_nil_extract_mid _ _ _ _ _ _ hne hsetup)
          | (split_ifs at hfail ⊢ <;>
              first
                | exact glob_nil_finallyCleanup _ _ _
                    (glob_nil_extract_bnk _ _ _ _ _ _ _ hne hsetup)
                | exact glob_nil_finallyCleanup _ _ _
                    (glob_nil_convert _ _ _ _ _ _ _ _ _ he
                      (glob_nil_extract_bnk _ _ _ _ _ _ _ hne hsetup)))
  · intro hf
    unfold process_bnk_file at hfail ⊢
    rcases fault with _ | f
    · dsimp only at hfail ⊢
      split_ifs at hfail ⊢ <;>
        first
          | exact ⟨finallyCleanup_dir _ _, finallyCleanup_files_self _ _ hder⟩
          | exact ⟨finallyCleanup_dir _ _, finallyCleanup_files_self _ _ hdco⟩
    · cases f <;> dsimp only at hfail ⊢ <;>
        first
          | exact ⟨finallyCleanup_dir _ _, finallyCleanup_files_self _ _ hd2⟩
          | exact absurd rfl hf
          | (split_ifs at hfail ⊢ <;>
              first
                | exact ⟨finallyCleanup_dir _ _, finallyCleanup_files_self _ _ hder⟩
                | exact ⟨finallyCleanup_dir _ _, finallyCleanup_files_self _ _ hdco⟩)

/-- Witness for the amended C9: an archive whose extraction fails; the run
returns failure, the output subdirectory stays free of fragments, and
(the fault point not being mid-extraction) the workspace is fully gone. -/
theorem fragments_not_released_on_failure_witness :
    ("wav" ≠ "wem") ∧
    glob_wem (⟨[], []⟩ : FS) (["output"] ++ ["a"]) = [] ∧
    isPre (["output"] ++ ["a"]) ([] : DPath) = false ∧
    (process_bnk_file ⟨⟨[], []⟩, []⟩ "a" ⟨"a", "bnk"⟩ 7 ["output"] "wav"
        (fun _ => (some true, some 1)) false [] 1 false false 4844 false none).2
      = false ∧
    (glob_wem (process_bnk_file ⟨⟨[], []⟩, []⟩ "a" ⟨"a", "bnk"⟩ 7 ["output"] "wav"
          (fun _ => (some true, some 1)) false [] 1 false false 4844 false none).1.fs
        (["output"] ++ ["a"]) = [] ∧
      ((none : Option FaultPoint) ≠ some FaultPoint.duringExtract →
        dirExists (process_bnk_file ⟨⟨[], []⟩, []⟩ "a" ⟨"a", "bnk"⟩ 7 ["output"] "wav"
            (fun _ => (some true, some 1)) false [] 1 false false 4844 false none).1.fs
          (([] : DPath) ++ ["temp_" ++ "a"]) = false ∧
        filesUnder (process_bnk_file ⟨⟨[], []⟩, []⟩ "a" ⟨"a", "bnk"⟩ 7 ["output"] "wav"
            (fun _ => (some true, some 1)) false [] 1 false false 4844 false none).1.fs
          (([] : DPath) ++ ["temp_" ++ "a"]) = [])) :=
  ⟨by decide, by decide, by decide, by decide,
   fragments_not_released_on_failure ⟨⟨[], []⟩, []⟩ "a" ⟨"a", "bnk"⟩ 7 ["output"] "wav"
     (fun _ => (some true, some 1)) false [] 1 false false 4844 false none
     (by decide) (by decide) (by decide) (by decide)⟩

end BnkConv
